import Mathlib

/-!
Shallow embedding of the airanges server (src/unnamed/part_001, the most recent
variant: functions `getTopTickers`, `latest15mClose`, `hourlyChangeFromIntervals`,
`fetchEodHistory`, `eodChangeVsLatest15m`, the per-ticker `worker`, the batched
parallel loop, and the `/api/sp500` handler), together with theorems checking
the natural-language specification against it.

JavaScript numbers are modelled as exact rationals plus the IEEE special values
NaN and the two infinities; rounding of finite doubles is not modelled.  Upstream
HTTP traffic is modelled by the data the code actually inspects: the parsed
`intervals` array of the intraday response, the sequence of end-of-day pages the
pagination loop walks, and the list of regex matches found on the listing page.
-/

/-- Idealized JavaScript number: an exact rational, or one of the special
values NaN, plus infinity, minus infinity.  All of these satisfy the
JavaScript test `typeof x === 'number'`. -/
inductive JSNum where
  | fin (q : ℚ)
  | nan
  | inf
  | ninf
deriving DecidableEq

/-- JavaScript subtraction on numbers (exact on finite values). -/
def jsub : JSNum → JSNum → JSNum
  | .fin a, .fin b => .fin (a - b)
  | .nan, _ => .nan
  | _, .nan => .nan
  | .inf, .inf => .nan
  | .inf, _ => .inf
  | .ninf, .ninf => .nan
  | .ninf, _ => .ninf
  | .fin _, .inf => .ninf
  | .fin _, .ninf => .inf

/-- JavaScript division on numbers (exact on finite values; division of a
finite value by zero follows the sign convention of positive zero, the only
zero representable here). -/
def jdiv : JSNum → JSNum → JSNum
  | .nan, _ => .nan
  | _, .nan => .nan
  | .inf, .inf => .nan
  | .inf, .ninf => .nan
  | .ninf, .inf => .nan
  | .ninf, .ninf => .nan
  | .inf, .fin b => if b < 0 then .ninf else .inf
  | .ninf, .fin b => if b < 0 then .inf else .ninf
  | .fin _, .inf => .fin 0
  | .fin _, .ninf => .fin 0
  | .fin a, .fin b =>
      if b = 0 then (if a = 0 then .nan else if a < 0 then .ninf else .inf)
      else .fin (a / b)

/-- JavaScript multiplication on numbers (exact on finite values). -/
def jmul : JSNum → JSNum → JSNum
  | .nan, _ => .nan
  | _, .nan => .nan
  | .inf, .inf => .inf
  | .inf, .ninf => .ninf
  | .ninf, .inf => .ninf
  | .ninf, .ninf => .inf
  | .inf, .fin b => if b = 0 then .nan else if b < 0 then .ninf else .inf
  | .fin a, .inf => if a = 0 then .nan else if a < 0 then .ninf else .inf
  | .ninf, .fin b => if b = 0 then .nan else if b < 0 then .inf else .ninf
  | .fin a, .ninf => if a = 0 then .nan else if a < 0 then .inf else .ninf
  | .fin a, .fin b => .fin (a * b)

/-- The percent-change expression the source writes twice:
`((now - base) / base) * 100`. -/
def jsPct (now base : JSNum) : JSNum :=
  jmul (jdiv (jsub now base) base) (JSNum.fin 100)

/-- The value of a bar's `.close` field as classified by the `typeof` guard:
either a JavaScript number, or anything else (null, undefined, a string, ...). -/
inductive CloseVal where
  | jnum (x : JSNum)
  | other
deriving DecidableEq

/-- One element of an upstream `intervals` or `stock_prices` array: a truthy
object carrying a `.close` value, or a falsy element (null, undefined, 0, ...).
A truthy non-object behaves like an object whose `.close` is not a number. -/
inductive Bar where
  | obj (close : CloseVal)
  | falsy
deriving DecidableEq

/-- Extraction pattern `x && typeof x.close === 'number'` used by the source:
the numeric close of a bar, when the bar is truthy and its close is a number. -/
def Bar.closeNum : Bar → Option JSNum
  | .obj (.jnum x) => some x
  | _ => none

/-- Result record of `hourlyChangeFromIntervals`. -/
structure HourlyChange where
  base : Option JSNum
  changePct : Option JSNum
deriving DecidableEq

/-- Model of `hourlyChangeFromIntervals` (src/unnamed/part_001): the last 15m
bar against the bar 5 positions earlier; null unless at least 6 bars are
present, both closes are numbers, and the base close is not zero. -/
def hourlyChangeFromIntervals (arr : List Bar) : HourlyChange :=
  if arr.length < 6 then ⟨none, none⟩ else
  match (arr[arr.length - 1]?).bind Bar.closeNum,
        (arr[arr.length - 1 - 5]?).bind Bar.closeNum with
  | some lc, some bc =>
      if bc = JSNum.fin 0 then ⟨none, none⟩
      else ⟨some bc, some (jsPct lc bc)⟩
  | _, _ => ⟨none, none⟩

/-- Result record of `latest15mClose`. -/
structure Latest15m where
  price : Option JSNum
  intervals : List Bar
deriving DecidableEq

/-- Model of `latest15mClose`: the input is the observable intraday response,
`none` for a non-2xx reply (price null, empty intervals) and `some arr` for a
2xx reply whose parsed `intervals` array is `arr` (a non-array field is the
empty array).  The price is the close of the last bar when it is a number. -/
def latest15mClose (resp : Option (List Bar)) : Latest15m :=
  match resp with
  | none => ⟨none, []⟩
  | some arr => ⟨arr.getLast?.bind Bar.closeNum, arr⟩

/-- One observable end-of-day page: whether the HTTP reply was 2xx, the parsed
`stock_prices` rows, and whether `next_page` was truthy. -/
structure Page where
  ok : Bool
  rows : List Bar
  hasNext : Bool
deriving DecidableEq

/-- The `sessionsBack` value flowing out of `sessionsMap[range] ?? 1`.
JavaScript property lookup on an object literal consults the prototype chain,
so the all-lowercase keys `constructor` and `__proto__` produce a truthy,
non-numeric value (`Object.prototype.constructor` resp. `Object.prototype`)
which `?? 1` keeps; that value is modelled as `protoObj`. -/
inductive SbVal where
  | num (n : ℕ)
  | protoObj
deriving DecidableEq

/-- The loop test `all.length < need + 1` of `fetchEodHistory`.  When `need`
is the prototype object, `need + 1` is a string and the comparison is a
number-to-NaN comparison, hence false. -/
def sbNeedCond (len : ℕ) (need : SbVal) : Bool :=
  match need with
  | .num n => decide (len < n + 1)
  | .protoObj => false

/-- Pagination loop of `fetchEodHistory`, consuming the trace of upstream
pages in fetch order: break on a non-2xx page, append the page's rows, and
continue while fewer than `need + 1` rows are collected and a next page is
reported.  An exhausted trace ends the loop. -/
def fetchEodLoop (need : SbVal) : List Page → List Bar → List Bar
  | [], all => all
  | p :: rest, all =>
      if p.ok then
        let all2 := all ++ p.rows
        if sbNeedCond all2.length need && p.hasNext then fetchEodLoop need rest all2
        else all2
      else all

/-- Model of `fetchEodHistory` (src/unnamed/part_001): walk the paginated
end-of-day history, starting from an empty accumulator. -/
def fetchEodHistory (pages : List Page) (need : SbVal) : List Bar :=
  fetchEodLoop need pages []

/-- Rows contributed by the first `k` pages of the trace. -/
def rowsUpTo (pages : List Page) (k : ℕ) : List Bar :=
  ((pages.take k).map Page.rows).flatten

/-- The base-row expression of `eodChangeVsLatest15m`:
`hist.length > sessionsBack ? hist[sessionsBack] : hist[hist.length - 1]`.
The comparison is false when `sessionsBack` is the prototype object
(NaN comparison), so the oldest collected row is used. -/
def eodBaseRow (hist : List Bar) (sessionsBack : SbVal) : Option Bar :=
  match sessionsBack with
  | .num k => if k < hist.length then hist[k]? else hist[hist.length - 1]?
  | .protoObj => hist[hist.length - 1]?

/-- Result record of `eodChangeVsLatest15m`. -/
structure EodResult where
  base : Option JSNum
  now : Option JSNum
  changePct : Option JSNum
deriving DecidableEq

/-- Model of `eodChangeVsLatest15m` (src/unnamed/part_001): base from the
end-of-day history (the row at index `sessionsBack` when more rows than
`sessionsBack` exist, else the oldest collected row), `now` from the latest
15-minute close; percent change only when both are numbers and base is not
zero.  The test `hist.length > sessionsBack` is false when `sessionsBack` is
the prototype object (NaN comparison). -/
def eodChangeVsLatest15m (pages : List Page) (sessionsBack : SbVal)
    (intra : Option (List Bar)) : EodResult :=
  let hist := fetchEodHistory pages sessionsBack
  let now := (latest15mClose intra).price
  match now, hist.isEmpty with
  | none, _ => ⟨none, none, none⟩
  | some n, true => ⟨none, some n, none⟩
  | some n, false =>
      match (eodBaseRow hist sessionsBack).bind Bar.closeNum with
      | some b =>
          if b = JSNum.fin 0 then ⟨none, some n, none⟩
          else ⟨some b, some n, some (jsPct n b)⟩
      | none => ⟨none, some n, none⟩

/-- Lookup `sessionsMap[range]` on the object literal
`\x7b day: 1, week: 5, month: 21, year: 252 \x7d`, including the inherited
`Object.prototype` properties reachable through an all-lowercase key. -/
def sessionsMapLookup (range : String) : Option SbVal :=
  if range = "day" then some (.num 1)
  else if range = "week" then some (.num 5)
  else if range = "month" then some (.num 21)
  else if range = "year" then some (.num 252)
  else if range = "constructor" then some .protoObj
  else if range = "__proto__" then some .protoObj
  else none

/-- The expression `sessionsMap[range] ?? 1` of the worker. -/
def sbOf (range : String) : SbVal :=
  (sessionsMapLookup range).getD (.num 1)

/-- The output unit of the pipeline. -/
structure TickerMetric where
  ticker : String
  price : Option JSNum
  changePercent : Option JSNum
deriving DecidableEq

/-- Observable upstream behaviour for one ticker: either some unexpected
exception thrown during the worker body, or the responses the worker's
fetches receive (the end-of-day page trace and the intraday response). -/
inductive Upstream where
  | throws
  | responds (pages : List Page) (intra : Option (List Bar))

/-- Model of the per-ticker `worker` of the `/api/sp500` handler: the hour
branch uses the intraday series alone, every other range goes through
`eodChangeVsLatest15m` with `sessionsMap[range] ?? 1`; any exception is
absorbed into a metric with both fields null. -/
def worker (range : String) (t : String) (u : Upstream) : TickerMetric :=
  match u with
  | .throws => ⟨t, none, none⟩
  | .responds pages intra =>
      if range = "hour" then
        let latest := latest15mClose intra
        ⟨t, latest.price, (hourlyChangeFromIntervals latest.intervals).changePct⟩
      else
        let out := eodChangeVsLatest15m pages (sbOf range) intra
        ⟨t, out.now, out.changePct⟩

/-- The batched parallel loop of the handler: process consecutive chunks of
`conc` tickers, each chunk's results appended in input order (`Promise.all`
places every result at the index of its input).  At the call site `conc` is
at least 1; for `conc = 0` the JavaScript loop would not terminate and this
model is only used with positive `conc`. -/
def chunkRun (work : α → β) (conc : ℕ) : List α → List β
  | [] => []
  | x :: xs => ((x :: xs).take conc).map work ++ chunkRun work conc (xs.drop (conc - 1))
termination_by l => l.length
decreasing_by
  simp only [List.length_drop, List.length_cons]
  omega

/-- Scraping loop of `getTopTickers`: walk the regex matches in document
order, de-duplicate by first occurrence, stop once `limit` symbols are
collected or the matches are exhausted. -/
def scrapeGo (limit : ℕ) : List String → List String → List String
  | [], out => out
  | t :: rest, out =>
      if limit ≤ out.length then out
      else if t ∈ out then scrapeGo limit rest out
      else scrapeGo limit rest (out ++ [t])

/-- Symbols collected from the listing page's regex matches. -/
def scrapeCollect (limit : ℕ) (ms : List String) : List String :=
  scrapeGo limit ms []

/-- Model of `getTopTickers` (src/unnamed/part_001): the input is the
observable listing-page response, `Except.error status` for a non-2xx reply
and `Except.ok matches` for the list of regex matches in the page text.
A thrown error is modelled as `Except.error` carrying the error message. -/
def getTopTickers (limit : ℕ) (resp : Except ℕ (List String)) :
    Except String (List String) :=
  match resp with
  | .error status => .error ("SlickCharts HTTP " ++ toString status)
  | .ok ms =>
      let out := scrapeCollect limit ms
      if out.isEmpty then .error "No S&P500 tickers scraped"
      else .ok (out.take limit)

/-- ASCII lowercasing, the effect of `toLowerCase()` on the query values in
scope (character-wise `Char.toLower`). -/
def jsToLower (s : String) : String :=
  ⟨s.data.map Char.toLower⟩

/-- The expression `(req.query.range || 'day').toLowerCase()`: an absent or
empty range parameter falls back to `day`; the result is lowercased. -/
def rangeOf (rangeQ : Option String) : String :=
  jsToLower (match rangeQ with
   | none => "day"
   | some s => if s = "" then "day" else s)

/-- The expression `Math.max(1, Math.min(100, Number.isFinite(p) ? p : 10))`
applied to the result of `parseInt(req.query.limit, 10)`; `none` models a
non-finite parse (absent or non-numeric parameter). -/
def limitClamp (p : Option ℤ) : ℤ :=
  max 1 (min 100 (p.getD 10))

/-- The two observable outcomes of a `/api/sp500` request. -/
inductive ApiResponse where
  | error500 (msg : String)
  | ok200 (items : List TickerMetric)
deriving DecidableEq

/-- Model of the `/api/sp500` handler: reject when the credential is absent;
clamp the limit; lowercase the range; fetch the tickers (an error propagates
as a 500 whose body is the error's message, with the handler's fallback text
for an empty message); run the workers in chunks of `min(LIMIT, 10)`; keep
the metrics with a truthy ticker and hard-truncate to the limit. -/
def sp500Handler (apiKeyPresent : Bool) (rangeQ : Option String)
    (limitQ : Option ℤ) (slick : Except ℕ (List String))
    (u : String → Upstream) : ApiResponse :=
  if apiKeyPresent then
    let range := rangeOf rangeQ
    let lim := (limitClamp limitQ).toNat
    let conc := min lim 10
    match getTopTickers lim slick with
    | .error msg =>
        .error500 (if msg = "" then "Failed to build S&P500 data" else msg)
    | .ok tickers =>
        .ok200 (((chunkRun (fun t => worker range t (u t)) conc tickers).filter
          (fun x => x.ticker != "")).take lim)
  else .error500 "INTRINIO_API_KEY missing"

/-- Shorthand for concrete examples: a truthy bar with a finite close. -/
def qBar (q : ℚ) : Bar := Bar.obj (CloseVal.jnum (JSNum.fin q))

/-- A bar whose close survives standard JSON parsing without overflow: a
finite number or a non-number, but never NaN or an infinity. -/
def goodClose : Bar → Bool
  | Bar.obj (CloseVal.jnum (JSNum.fin _)) => true
  | Bar.obj (CloseVal.jnum _) => false
  | Bar.obj CloseVal.other => true
  | Bar.falsy => true

/-- Every row of every end-of-day page has a good close. -/
def goodPages (pages : List Page) : Bool :=
  pages.all (fun p => p.rows.all goodClose)

/-- Every bar of the intraday response (when 2xx) has a good close. -/
def goodIntra : Option (List Bar) → Bool
  | none => true
  | some arr => arr.all goodClose

/-- All close values a ticker's upstream delivers are good. -/
def goodUpstream : Upstream → Bool
  | .throws => true
  | .responds pages intra => goodPages pages && goodIntra intra

/-! ## Supporting lemmas -/

/-- On finite operands with a non-zero base, the JavaScript percent-change
expression computes the exact rational `(now - base) / base * 100`. -/
theorem jsPct_fin (n b : ℚ) (hb : b ≠ 0) :
    jsPct (.fin n) (.fin b) = .fin ((n - b) / b * 100) := by
  simp [jsPct, jsub, jdiv, jmul, hb]

/-! ## Claims -/

/-- C1: for every ticker metric computed on either path (intraday hourly or
session-lookback), `changePercent` is `((now - base) / base) * 100` when both
`now` and `base` are numbers and `base` is not 0 — on finite values the exact
rational of that formula — and it is null when `base` is 0 or when `now` or
`base` is missing or non-numeric; `now = 110` against `base = 100` gives
exactly 10. -/
theorem C1_percent_change_formula :
    (∀ (arr : List Bar) (lc bc : JSNum),
      6 ≤ arr.length →
      (arr[arr.length - 1]?).bind Bar.closeNum = some lc →
      (arr[arr.length - 1 - 5]?).bind Bar.closeNum = some bc →
      (hourlyChangeFromIntervals arr).changePct =
        if bc = JSNum.fin 0 then none else some (jsPct lc bc)) ∧
    (∀ arr : List Bar,
      6 ≤ arr.length →
      ((arr[arr.length - 1]?).bind Bar.closeNum = none ∨
       (arr[arr.length - 1 - 5]?).bind Bar.closeNum = none) →
      (hourlyChangeFromIntervals arr).changePct = none) ∧
    (∀ (pages : List Page) (sb : SbVal) (intra : Option (List Bar)) (n b : JSNum),
      (latest15mClose intra).price = some n →
      (eodBaseRow (fetchEodHistory pages sb) sb).bind Bar.closeNum = some b →
      (fetchEodHistory pages sb).isEmpty = false →
      (eodChangeVsLatest15m pages sb intra).changePct =
        if b = JSNum.fin 0 then none else some (jsPct n b)) ∧
    (∀ (pages : List Page) (sb : SbVal) (intra : Option (List Bar)),
      (latest15mClose intra).price = none →
      (eodChangeVsLatest15m pages sb intra).changePct = none) ∧
    (∀ (pages : List Page) (sb : SbVal) (intra : Option (List Bar)),
      (eodBaseRow (fetchEodHistory pages sb) sb).bind Bar.closeNum = none →
      (eodChangeVsLatest15m pages sb intra).changePct = none) ∧
    (∀ n b : ℚ, b ≠ 0 → jsPct (.fin n) (.fin b) = .fin ((n - b) / b * 100)) ∧
    jsPct (.fin 110) (.fin 100) = .fin 10 := by
  refine ⟨?_, ?_, ?_, ?_, ?_, fun n b hb => jsPct_fin n b hb, ?_⟩
  · intro arr lc bc hlen hl hb
    rw [hourlyChangeFromIntervals, if_neg (by omega)]
    rw [hl, hb]
    by_cases h : bc = JSNum.fin 0 <;> simp [h]
  · intro arr hlen h
    rw [hourlyChangeFromIntervals, if_neg (by omega)]
    rcases h with h | h <;> rw [h] <;> cases hx : (arr[arr.length - 1]?).bind Bar.closeNum <;>
      cases hy : (arr[arr.length - 1 - 5]?).bind Bar.closeNum <;> simp_all
  · intro pages sb intra n b hn hb hne
    rw [eodChangeVsLatest15m]
    simp only [hn, hne, hb]
    split <;> simp_all
  · intro pages sb intra hn
    rw [eodChangeVsLatest15m]
    simp only [hn]
  · intro pages sb intra hb
    rw [eodChangeVsLatest15m]
    cases hn : (latest15mClose intra).price <;>
      cases hne : (fetchEodHistory pages sb).isEmpty <;>
        simp only [hn, hne, hb]
  · rw [jsPct_fin 110 100 (by norm_num)]
    norm_num

/-- Witness for C1 at concrete inputs: a six-bar series with closes
100, 1, 2, 3, 4, 110 yields `changePercent = 10`, and a five-bar check of the
finite-value formula. -/
theorem C1_percent_change_formula_witness :
    (hourlyChangeFromIntervals
      [Bar.obj (.jnum (.fin 100)), Bar.obj (.jnum (.fin 1)),
       Bar.obj (.jnum (.fin 2)), Bar.obj (.jnum (.fin 3)),
       Bar.obj (.jnum (.fin 4)), Bar.obj (.jnum (.fin 110))]).changePct =
      some (JSNum.fin 10) := by
  have h := C1_percent_change_formula.1
    [Bar.obj (.jnum (.fin 100)), Bar.obj (.jnum (.fin 1)),
     Bar.obj (.jnum (.fin 2)), Bar.obj (.jnum (.fin 3)),
     Bar.obj (.jnum (.fin 4)), Bar.obj (.jnum (.fin 110))]
    (.fin 110) (.fin 100) (by decide) (by decide) (by decide)
  rw [h, if_neg (by simp), jsPct_fin 110 100 (by norm_num)]
  norm_num

/-- C3: for fewer than 6 intraday bars the hourly-change computation returns
both fields null; for exactly 6 bars it compares close `c0` (the base) with
close `c5` (the current value), giving `((c5 - c0) / c0) * 100` when both are
finite numbers and `c0` is not zero. -/
theorem C3_hourly_window :
    (∀ arr : List Bar, arr.length < 6 →
      hourlyChangeFromIntervals arr = ⟨none, none⟩) ∧
    (∀ (b1 b2 b3 b4 : Bar) (c0 c5 : ℚ), c0 ≠ 0 →
      hourlyChangeFromIntervals
        [Bar.obj (.jnum (.fin c0)), b1, b2, b3, b4, Bar.obj (.jnum (.fin c5))] =
        ⟨some (.fin c0), some (.fin ((c5 - c0) / c0 * 100))⟩) := by
  constructor
  · intro arr h
    rw [hourlyChangeFromIntervals, if_pos h]
  · intro b1 b2 b3 b4 c0 c5 hc0
    rw [hourlyChangeFromIntervals]
    simp [Bar.closeNum, hc0, jsPct_fin c5 c0 hc0]

/-- Witness for C3 at concrete inputs: five bars give both fields null, and
closes 100 and 110 in a six-bar series give base 100 and percent change 10. -/
theorem C3_hourly_window_witness :
    hourlyChangeFromIntervals
      [Bar.obj (.jnum (.fin 1)), Bar.obj (.jnum (.fin 2)),
       Bar.obj (.jnum (.fin 3)), Bar.obj (.jnum (.fin 4)),
       Bar.obj (.jnum (.fin 5))] = ⟨none, none⟩ ∧
    hourlyChangeFromIntervals
      [Bar.obj (.jnum (.fin 100)), Bar.falsy, Bar.falsy, Bar.falsy,
       Bar.falsy, Bar.obj (.jnum (.fin 110))] =
      ⟨some (.fin 100), some (.fin 10)⟩ := by
  constructor
  · exact C3_hourly_window.1 _ (by decide)
  · have h := C3_hourly_window.2 Bar.falsy Bar.falsy Bar.falsy Bar.falsy
      100 110 (by norm_num)
    rw [h]
    norm_num

/-- Rows of the empty trace. -/
theorem rowsUpTo_nil (k : ℕ) : rowsUpTo [] k = [] := by
  simp [rowsUpTo]

/-- Zero pages contribute no rows. -/
theorem rowsUpTo_zero (pages : List Page) : rowsUpTo pages 0 = [] := rfl

/-- Unfolding the consumed-rows prefix by one page. -/
theorem rowsUpTo_cons (p : Page) (rest : List Page) (k : ℕ) :
    rowsUpTo (p :: rest) (k + 1) = p.rows ++ rowsUpTo rest k := by
  simp [rowsUpTo]

/-- Unfolding of the pagination loop on a non-empty trace. -/
theorem fetchEodLoop_cons (need : SbVal) (p : Page) (rest : List Page)
    (acc : List Bar) :
    fetchEodLoop need (p :: rest) acc =
      if p.ok then
        (if sbNeedCond (acc ++ p.rows).length need && p.hasNext then
          fetchEodLoop need rest (acc ++ p.rows)
        else acc ++ p.rows)
      else acc := rfl

/-- Full characterization of the pagination loop from any accumulator: a
prefix of `k` pages is consumed and its rows appended in order; every
consumed page was 2xx; the loop ran past each non-final consumed page only
because fewer than `need + 1` rows were collected so far and that page
reported a next page; and when the trace was not exhausted, the loop stopped
either on a non-2xx page or because the continue test failed after the last
consumed page. -/
theorem fetchEodLoop_spec (need : SbVal) (pages : List Page) :
    ∀ acc : List Bar, ∃ k,
      k ≤ pages.length ∧
      fetchEodLoop need pages acc = acc ++ rowsUpTo pages k ∧
      (∀ i, i < k → ∃ p, pages[i]? = some p ∧ p.ok = true) ∧
      (∀ i, i + 1 < k → ∃ p, pages[i]? = some p ∧ p.hasNext = true ∧
        sbNeedCond (acc ++ rowsUpTo pages (i + 1)).length need = true) ∧
      (k < pages.length →
        (∃ p, pages[k]? = some p ∧ p.ok = false) ∨
        (0 < k ∧ ∃ p, pages[k - 1]? = some p ∧
          (sbNeedCond (acc ++ rowsUpTo pages k).length need && p.hasNext) = false)) := by
  induction pages with
  | nil =>
      intro acc
      refine ⟨0, Nat.le_refl 0, by simp [fetchEodLoop, rowsUpTo_zero], ?_, ?_, ?_⟩
      · intro i hi; omega
      · intro i hi; omega
      · intro h; simp at h
  | cons p rest ih =>
      intro acc
      cases hok : p.ok with
      | false =>
          refine ⟨0, Nat.zero_le _, ?_, ?_, ?_, ?_⟩
          · rw [fetchEodLoop_cons, if_neg (by simp [hok]), rowsUpTo_zero,
              List.append_nil]
          · intro i hi; omega
          · intro i hi; omega
          · intro _
            exact Or.inl ⟨p, by simp, hok⟩
      | true =>
          cases hcont : sbNeedCond (acc ++ p.rows).length need && p.hasNext with
          | false =>
              refine ⟨1, by simp only [List.length_cons]; omega, ?_, ?_, ?_, ?_⟩
              · rw [fetchEodLoop_cons, if_pos hok, if_neg (by rw [hcont]; simp),
                  rowsUpTo_cons, rowsUpTo_zero, List.append_nil]
              · intro i hi
                obtain rfl : i = 0 := by omega
                exact ⟨p, by simp, hok⟩
              · intro i hi; omega
              · intro _
                refine Or.inr ⟨by omega, p, by simp, ?_⟩
                simp only [rowsUpTo_cons, rowsUpTo_zero, List.append_nil]
                exact hcont
          | true =>
              obtain ⟨k, hk, heq, hoks, hconts, hstop⟩ := ih (acc ++ p.rows)
              refine ⟨k + 1, by simp only [List.length_cons]; omega, ?_, ?_, ?_, ?_⟩
              · rw [fetchEodLoop_cons, if_pos hok, if_pos hcont, heq,
                  rowsUpTo_cons, List.append_assoc]
              · intro i hi
                match i with
                | 0 => exact ⟨p, by simp, hok⟩
                | Nat.succ j =>
                    obtain ⟨q, hq, hqok⟩ := hoks j (by omega)
                    exact ⟨q, by simpa using hq, hqok⟩
              · intro i hi
                match i with
                | 0 =>
                    have hc := hcont
                    rw [Bool.and_eq_true] at hc
                    refine ⟨p, by simp, hc.2, ?_⟩
                    simp only [rowsUpTo_cons, rowsUpTo_zero, List.append_nil]
                    exact hc.1
                | Nat.succ j =>
                    obtain ⟨q, hq, hnx, hcnd⟩ := hconts j (by omega)
                    refine ⟨q, by simpa using hq, hnx, ?_⟩
                    rw [rowsUpTo_cons, ← List.append_assoc]
                    exact hcnd
              · intro h
                have hlt : k < rest.length := by
                  simp only [List.length_cons] at h; omega
                rcases hstop hlt with ⟨q, hq, hqok⟩ | ⟨hk0, q, hq, hcnd⟩
                · exact Or.inl ⟨q, by simpa using hq, hqok⟩
                · obtain ⟨m, rfl⟩ : ∃ m, k = m + 1 := ⟨k - 1, by omega⟩
                  refine Or.inr ⟨by omega, q, by simpa using hq, ?_⟩
                  rw [rowsUpTo_cons, ← List.append_assoc]
                  exact hcnd

/-- The pagination characterization for `fetchEodHistory` itself. -/
theorem fetchEodHistory_spec (pages : List Page) (need : SbVal) :
    ∃ k, k ≤ pages.length ∧
      fetchEodHistory pages need = rowsUpTo pages k ∧
      (∀ i, i < k → ∃ p, pages[i]? = some p ∧ p.ok = true) ∧
      (∀ i, i + 1 < k → ∃ p, pages[i]? = some p ∧ p.hasNext = true ∧
        sbNeedCond (rowsUpTo pages (i + 1)).length need = true) ∧
      (k < pages.length →
        (∃ p, pages[k]? = some p ∧ p.ok = false) ∨
        (0 < k ∧ ∃ p, pages[k - 1]? = some p ∧
          (sbNeedCond (rowsUpTo pages k).length need && p.hasNext) = false)) := by
  obtain ⟨k, hk, heq, hoks, hconts, hstop⟩ := fetchEodLoop_spec need pages []
  refine ⟨k, hk, by simpa using heq, hoks, ?_, ?_⟩
  · intro i hi
    obtain ⟨q, hq, hnx, hcnd⟩ := hconts i hi
    exact ⟨q, hq, hnx, by simpa using hcnd⟩
  · intro h
    rcases hstop h with hl | ⟨hk0, q, hq, hcnd⟩
    · exact Or.inl hl
    · exact Or.inr ⟨hk0, q, hq, by simpa using hcnd⟩

/-- C2 (amended): for every range in day, week, month, year the sessions-back
values are 1, 5, 21, 252; every other range value — except the inherited
`Object.prototype` property names `constructor` and `__proto__`, on which the
lookup `sessionsMap[range] ?? 1` does not default — falls back to 1; every
non-hour range goes through `eodChangeVsLatest15m`; the end-of-day history is
fetched page by page until at least `sessionsBack + 1` rows are collected or
the upstream reports no next page (or fails); the base row is the row at
index `sessionsBack` when more rows exist, else the oldest collected row; and
`now` is always the most recent 15-minute intraday close, independent of the
requested range. -/
theorem C2_session_lookback :
    (sbOf "day" = .num 1 ∧ sbOf "week" = .num 5 ∧ sbOf "month" = .num 21 ∧
      sbOf "year" = .num 252) ∧
    (∀ r, r ≠ "day" → r ≠ "week" → r ≠ "month" → r ≠ "year" →
      r ≠ "constructor" → r ≠ "__proto__" → sbOf r = .num 1) ∧
    (∀ (range t : String) (pages : List Page) (intra : Option (List Bar)),
      range ≠ "hour" →
      worker range t (.responds pages intra) =
        ⟨t, (eodChangeVsLatest15m pages (sbOf range) intra).now,
            (eodChangeVsLatest15m pages (sbOf range) intra).changePct⟩) ∧
    (∀ (pages : List Page) (sb : ℕ), ∃ k,
      k ≤ pages.length ∧
      fetchEodHistory pages (.num sb) = rowsUpTo pages k ∧
      (∀ i, i < k → ∃ p, pages[i]? = some p ∧ p.ok = true) ∧
      (∀ i, i + 1 < k → ∃ p, pages[i]? = some p ∧ p.hasNext = true ∧
        (rowsUpTo pages (i + 1)).length < sb + 1) ∧
      (k < pages.length →
        (∃ p, pages[k]? = some p ∧ p.ok = false) ∨
        (0 < k ∧ ∃ p, pages[k - 1]? = some p ∧
          ¬((rowsUpTo pages k).length < sb + 1 ∧ p.hasNext = true)))) ∧
    (∀ (pages : List Page) (sb : SbVal) (intra : Option (List Bar)),
      (eodChangeVsLatest15m pages sb intra).now = (latest15mClose intra).price) ∧
    (∀ (hist : List Bar) (sb : ℕ),
      (sb < hist.length → eodBaseRow hist (.num sb) = hist[sb]?) ∧
      (¬sb < hist.length → eodBaseRow hist (.num sb) = hist[hist.length - 1]?)) ∧
    (∀ (pages : List Page) (sb : SbVal) (intra : Option (List Bar)) (n b : JSNum),
      (latest15mClose intra).price = some n →
      (fetchEodHistory pages sb).isEmpty = false →
      (eodBaseRow (fetchEodHistory pages sb) sb).bind Bar.closeNum = some b →
      b ≠ JSNum.fin 0 →
      (eodChangeVsLatest15m pages sb intra).base = some b ∧
      (eodChangeVsLatest15m pages sb intra).now = some n) := by
  refine ⟨by decide, ?_, ?_, ?_, ?_, ?_, ?_⟩
  · intro r h1 h2 h3 h4 h5 h6
    simp [sbOf, sessionsMapLookup, h1, h2, h3, h4, h5, h6]
  · intro range t pages intra h
    simp [worker, h]
  · intro pages sb
    obtain ⟨k, hk, heq, hoks, hconts, hstop⟩ := fetchEodHistory_spec pages (.num sb)
    refine ⟨k, hk, heq, hoks, ?_, ?_⟩
    · intro i hi
      obtain ⟨q, hq, hnx, hcnd⟩ := hconts i hi
      refine ⟨q, hq, hnx, ?_⟩
      simpa [sbNeedCond] using hcnd
    · intro h
      rcases hstop h with hl | ⟨hk0, q, hq, hcnd⟩
      · exact Or.inl hl
      · refine Or.inr ⟨hk0, q, hq, ?_⟩
        rintro ⟨hlen, hnx⟩
        have hcontradiction :
            (sbNeedCond (rowsUpTo pages k).length (.num sb) && q.hasNext) = true := by
          simp [sbNeedCond, hlen, hnx]
        rw [hcnd] at hcontradiction
        simp at hcontradiction
  · intro pages sb intra
    rw [eodChangeVsLatest15m]
    cases hn : (latest15mClose intra).price with
    | none => cases (fetchEodHistory pages sb).isEmpty <;> rfl
    | some n =>
        cases he : (fetchEodHistory pages sb).isEmpty with
        | true => rfl
        | false =>
            cases (eodBaseRow (fetchEodHistory pages sb) sb).bind Bar.closeNum with
            | some b => by_cases hz : b = JSNum.fin 0 <;> simp [hz]
            | none => rfl
  · intro hist sb
    constructor <;> intro h <;> simp [eodBaseRow, h]
  · intro pages sb intra n b hn hne hb hbz
    rw [eodChangeVsLatest15m]
    simp only [hn, hne, hb]
    rw [if_neg hbz]
    exact ⟨rfl, rfl⟩

/-- Counterexample to C2 as frozen: the claim's "default 1" for unrecognized
ranges fails on the range value `constructor`, where the JavaScript lookup
`sessionsMap[range] ?? 1` finds the inherited, non-nullish
`Object.prototype.constructor`, so with three collected rows the comparison
base is the oldest row (close 25) rather than the row at index 1 (close 50)
that `sessionsBack = 1` would select. -/
theorem C2_counterexample :
    sbOf "constructor" ≠ SbVal.num 1 ∧
    (eodChangeVsLatest15m [⟨true, [qBar 105, qBar 50, qBar 25], false⟩]
        (sbOf "constructor") (some [qBar 10])).base = some (.fin 25) ∧
    (eodChangeVsLatest15m [⟨true, [qBar 105, qBar 50, qBar 25], false⟩]
        (SbVal.num 1) (some [qBar 10])).base = some (.fin 50) := by
  exact ⟨by decide, by decide, by decide⟩

/-- Witness for C2 at concrete inputs: the worker equation at range `week`,
and the base and now selection on a one-page history with closes 110, 100
and intraday close 110. -/
theorem C2_session_lookback_witness :
    worker "week" "A" (.responds [] none) =
      ⟨"A", (eodChangeVsLatest15m [] (sbOf "week") none).now,
          (eodChangeVsLatest15m [] (sbOf "week") none).changePct⟩ ∧
    (eodChangeVsLatest15m [⟨true, [qBar 110, qBar 100], false⟩] (.num 1)
        (some [qBar 110])).base = some (.fin 100) ∧
    (eodChangeVsLatest15m [⟨true, [qBar 110, qBar 100], false⟩] (.num 1)
        (some [qBar 110])).now = some (.fin 110) := by
  refine ⟨C2_session_lookback.2.2.1 "week" "A" [] none (by decide), ?_⟩
  exact C2_session_lookback.2.2.2.2.2.2 [⟨true, [qBar 110, qBar 100], false⟩]
    (.num 1) (some [qBar 110]) (.fin 110) (.fin 100)
    (by decide) (by decide) (by decide) (by decide)

/-- Bounded induction form of the chunked-loop refinement: with positive
chunk size the batched loop is the sequential map. -/
theorem chunkRun_eq_map_aux (work : α → β) (conc : ℕ) (hc : 1 ≤ conc) :
    ∀ (n : ℕ) (l : List α), l.length ≤ n → chunkRun work conc l = l.map work := by
  intro n
  induction n with
  | zero =>
      intro l hl
      rw [List.eq_nil_of_length_eq_zero (Nat.le_zero.mp hl)]
      simp [chunkRun]
  | succ n ih =>
      intro l hl
      cases l with
      | nil => simp [chunkRun]
      | cons x xs =>
          rw [chunkRun, ih (xs.drop (conc - 1))
            (by simp only [List.length_drop, List.length_cons] at hl ⊢; omega)]
          rw [← List.map_append]
          congr 1
          obtain ⟨c, rfl⟩ : ∃ c, conc = c + 1 := ⟨conc - 1, by omega⟩
          rw [List.take_succ_cons, Nat.add_sub_cancel, List.cons_append,
            List.take_append_drop]

/-- The chunked-loop refinement at the list itself. -/
theorem chunkRun_eq_map (work : α → β) (conc : ℕ) (hc : 1 ≤ conc)
    (l : List α) : chunkRun work conc l = l.map work :=
  chunkRun_eq_map_aux work conc hc l.length l (Nat.le_refl _)

/-- The worker stamps its input ticker on the metric, on every path. -/
theorem worker_ticker (range t : String) (u : Upstream) :
    (worker range t u).ticker = t := by
  cases u with
  | throws => rfl
  | responds pages intra =>
      rw [worker]
      split <;> rfl

/-- The clamped limit is at least 1 and at most 100. -/
theorem limitClamp_bounds (p : Option ℤ) :
    1 ≤ limitClamp p ∧ limitClamp p ≤ 100 := by
  simp only [limitClamp]
  omega

/-- The handler's chunk size `min(LIMIT, 10)` is positive. -/
theorem handler_conc_pos (lq : Option ℤ) : 1 ≤ min (limitClamp lq).toNat 10 := by
  have h := (limitClamp_bounds lq).1
  omega

/-- C4: with positive chunk size, processing consecutive chunks and
concatenating each fully awaited chunk equals mapping the worker over the
input sequentially: the output has the same length as the input, the item at
position `i` is the worker's result for the `i`-th ticker and carries that
ticker, and the handler's chunk size `min(LIMIT, 10)` is always positive. -/
theorem C4_batch_order :
    (∀ (α β : Type) (work : α → β) (conc : ℕ), 1 ≤ conc →
      ∀ l : List α, chunkRun work conc l = l.map work) ∧
    (∀ (α β : Type) (work : α → β) (conc : ℕ), 1 ≤ conc →
      ∀ l : List α, (chunkRun work conc l).length = l.length ∧
        ∀ i : ℕ, (chunkRun work conc l)[i]? = l[i]?.map work) ∧
    (∀ (range : String) (u : String → Upstream) (t : String),
      (worker range t (u t)).ticker = t) ∧
    (∀ lq : Option ℤ, 1 ≤ min (limitClamp lq).toNat 10) := by
  refine ⟨fun α β work conc hc l => chunkRun_eq_map work conc hc l,
    fun α β work conc hc l => ?_,
    fun range u t => worker_ticker range t (u t),
    fun lq => handler_conc_pos lq⟩
  rw [chunkRun_eq_map work conc hc l]
  exact ⟨List.length_map l work, fun i => (List.getElem?_map work l i)⟩

/-- Witness for C4 at a concrete input: chunk size 3 over four tickers equals
the sequential map. -/
theorem C4_batch_order_witness :
    chunkRun (fun t => worker "day" t Upstream.throws) 3
        ["AAPL", "MSFT", "NVDA", "GOOG"] =
      List.map (fun t => worker "day" t Upstream.throws)
        ["AAPL", "MSFT", "NVDA", "GOOG"] :=
  C4_batch_order.1 String TickerMetric (fun t => worker "day" t Upstream.throws) 3
    (by decide) ["AAPL", "MSFT", "NVDA", "GOOG"]

/-- Structure of a successful ticker fetch: the scraped response was 2xx, the
collected symbol list is non-empty, and the result is its `limit`-prefix. -/
theorem getTopTickers_ok (n : ℕ) (resp : Except ℕ (List String))
    (ts : List String) (h : getTopTickers n resp = .ok ts) :
    ∃ ms, resp = .ok ms ∧ (scrapeCollect n ms).isEmpty = false ∧
      ts = (scrapeCollect n ms).take n := by
  cases resp with
  | error s => simp [getTopTickers] at h
  | ok ms =>
      rw [getTopTickers] at h
      by_cases he : (scrapeCollect n ms).isEmpty
      · rw [if_pos he] at h
        cases h
      · rw [if_neg he] at h
        injection h with h2
        exact ⟨ms, rfl, by simpa using he, h2.symm⟩

/-- On the success path the handler's response is exactly the worker mapped
over the fetched tickers in order: the filter keeps every metric (each
carries its non-empty ticker) and the hard truncation is a no-op (the ticker
list is already at most `LIMIT` long). -/
theorem sp500Handler_ok (rangeQ : Option String) (limitQ : Option ℤ)
    (slick : Except ℕ (List String)) (u : String → Upstream) (ts : List String)
    (hts : getTopTickers (limitClamp limitQ).toNat slick = .ok ts)
    (hne : ∀ t ∈ ts, t ≠ "") :
    sp500Handler true rangeQ limitQ slick u =
      .ok200 (ts.map (fun t => worker (rangeOf rangeQ) t (u t))) := by
  rw [sp500Handler, if_pos rfl]
  simp only [hts]
  rw [chunkRun_eq_map _ _ (handler_conc_pos limitQ)]
  have hfilter : (ts.map (fun t => worker (rangeOf rangeQ) t (u t))).filter
      (fun x => x.ticker != "") = ts.map (fun t => worker (rangeOf rangeQ) t (u t)) := by
    rw [List.filter_eq_self]
    intro a ha
    obtain ⟨t, ht, rfl⟩ := List.mem_map.mp ha
    simp only [worker_ticker, bne_iff_ne]
    exact hne t ht
  rw [hfilter]
  have hlen : ts.length ≤ (limitClamp limitQ).toNat := by
    obtain ⟨ms, _, _, hts2⟩ := getTopTickers_ok _ _ _ hts
    rw [hts2]
    exact le_trans (List.length_take_le _ _) (Nat.le_refl _)
  rw [List.take_of_length_le (by simpa using hlen)]

/-- C5: a ticker whose computation throws still contributes
`(ticker, null, null)` at its input position; the batch never fails, the
request never turns into a 500, and no other ticker's metric is affected —
the handler's response is always the per-ticker results, in input order,
whatever the per-ticker upstream behaviour is. -/
theorem C5_per_ticker_fallback :
    (∀ range t, worker range t .throws = ⟨t, none, none⟩) ∧
    (∀ (rangeQ : Option String) (limitQ : Option ℤ)
       (slick : Except ℕ (List String)) (u : String → Upstream)
       (ts : List String),
      getTopTickers (limitClamp limitQ).toNat slick = .ok ts →
      (∀ t ∈ ts, t ≠ "") →
      ∃ items, sp500Handler true rangeQ limitQ slick u = .ok200 items ∧
        items.length = ts.length ∧
        (∀ (i : ℕ) (t : String), ts[i]? = some t → u t = .throws →
          items[i]? = some ⟨t, none, none⟩) ∧
        (∀ (i : ℕ) (t : String), ts[i]? = some t →
          items[i]? = some (worker (rangeOf rangeQ) t (u t)))) := by
  refine ⟨fun range t => rfl, ?_⟩
  intro rangeQ limitQ slick u ts hts hne
  refine ⟨ts.map (fun t => worker (rangeOf rangeQ) t (u t)),
    sp500Handler_ok rangeQ limitQ slick u ts hts hne, List.length_map ts _,
    ?_, ?_⟩
  · intro i t hit hthrow
    rw [List.getElem?_map, hit]
    simp [hthrow, worker]
  · intro i t hit
    rw [List.getElem?_map, hit]
    rfl

/-- Witness for C5 at concrete inputs: of two tickers the first throws and
appears as `(AAPL, null, null)` in first position, while the batch still
succeeds with both items present. -/
theorem C5_per_ticker_fallback_witness :
    ∃ items,
      sp500Handler true none (some 2) (.ok ["AAPL", "MSFT"])
          (fun t => if t = "AAPL" then .throws else
            .responds [⟨true, [qBar 110, qBar 100], false⟩] (some [qBar 110])) =
        .ok200 items ∧
      items.length = 2 ∧
      items[0]? = some ⟨"AAPL", none, none⟩ := by
  obtain ⟨items, h1, h2, h3, _⟩ := C5_per_ticker_fallback.2 none (some 2)
    (.ok ["AAPL", "MSFT"])
    (fun t => if t = "AAPL" then .throws else
      .responds [⟨true, [qBar 110, qBar 100], false⟩] (some [qBar 110]))
    ["AAPL", "MSFT"] rfl (by decide)
  exact ⟨items, h1, by rw [h2]; rfl, h3 0 "AAPL" (by decide) rfl⟩

/-- A good close that passes the `typeof` guard is a finite number. -/
theorem goodClose_closeNum (b : Bar) (x : JSNum) (hg : goodClose b = true)
    (hx : b.closeNum = some x) : ∃ q : ℚ, x = .fin q := by
  cases b with
  | falsy => simp [Bar.closeNum] at hx
  | obj c =>
      cases c with
      | other => simp [Bar.closeNum] at hx
      | jnum y =>
          cases y with
          | fin q =>
              simp only [Bar.closeNum, Option.some.injEq] at hx
              exact ⟨q, hx.symm⟩
          | nan => simp [goodClose] at hg
          | inf => simp [goodClose] at hg
          | ninf => simp [goodClose] at hg

/-- Every row the pagination loop returns comes from the accumulator or from
some page of the trace. -/
theorem mem_fetchEodLoop (need : SbVal) :
    ∀ (pages : List Page) (acc : List Bar) (b : Bar),
      b ∈ fetchEodLoop need pages acc → b ∈ acc ∨ ∃ p ∈ pages, b ∈ p.rows := by
  intro pages
  induction pages with
  | nil =>
      intro acc b hb
      exact Or.inl (by simpa [fetchEodLoop] using hb)
  | cons p rest ih =>
      intro acc b hb
      rw [fetchEodLoop_cons] at hb
      by_cases hok : p.ok = true
      · rw [if_pos hok] at hb
        by_cases hcont : (sbNeedCond (acc ++ p.rows).length need && p.hasNext) = true
        · rw [if_pos hcont] at hb
          rcases ih (acc ++ p.rows) b hb with hacc | ⟨q, hq, hbq⟩
          · rcases List.mem_append.mp hacc with h | h
            · exact Or.inl h
            · exact Or.inr ⟨p, List.mem_cons_self p rest, h⟩
          · exact Or.inr ⟨q, List.mem_cons_of_mem p hq, hbq⟩
        · rw [if_neg hcont] at hb
          rcases List.mem_append.mp hb with h | h
          · exact Or.inl h
          · exact Or.inr ⟨p, List.mem_cons_self p rest, h⟩
      · rw [if_neg hok] at hb
        exact Or.inl hb

/-- Every row of the fetched history comes from some page of the trace. -/
theorem mem_fetchEodHistory (pages : List Page) (need : SbVal) (b : Bar)
    (hb : b ∈ fetchEodHistory pages need) : ∃ p ∈ pages, b ∈ p.rows := by
  rcases mem_fetchEodLoop need pages [] b hb with h | h
  · cases h
  · exact h

/-- The selected base row is a row of the history. -/
theorem eodBaseRow_mem (hist : List Bar) (sb : SbVal) (bar : Bar)
    (h : eodBaseRow hist sb = some bar) : bar ∈ hist := by
  cases sb with
  | num k =>
      rw [eodBaseRow] at h
      by_cases hk : k < hist.length
      · rw [if_pos hk] at h
        exact List.getElem?_mem h
      · rw [if_neg hk] at h
        exact List.getElem?_mem h
  | protoObj => exact List.getElem?_mem h

/-- Evaluation of the hourly change once the guard data is known. -/
theorem hourlyChange_eval (arr : List Bar) (lc bc : JSNum)
    (hlen : ¬arr.length < 6)
    (hl : (arr[arr.length - 1]?).bind Bar.closeNum = some lc)
    (hb : (arr[arr.length - 1 - 5]?).bind Bar.closeNum = some bc) :
    hourlyChangeFromIntervals arr =
      if bc = JSNum.fin 0 then ⟨none, none⟩
      else ⟨some bc, some (jsPct lc bc)⟩ := by
  rw [hourlyChangeFromIntervals, if_neg hlen, hl, hb]

/-- Evaluation of the session-lookback change once the guard data is known. -/
theorem eodChange_eval (pages : List Page) (sb : SbVal)
    (intra : Option (List Bar)) (n b : JSNum)
    (hn : (latest15mClose intra).price = some n)
    (he : (fetchEodHistory pages sb).isEmpty = false)
    (hb : (eodBaseRow (fetchEodHistory pages sb) sb).bind Bar.closeNum = some b) :
    eodChangeVsLatest15m pages sb intra =
      if b = JSNum.fin 0 then ⟨none, some n, none⟩
      else ⟨some b, some n, some (jsPct n b)⟩ := by
  rw [eodChangeVsLatest15m]
  simp only [hn, he, hb]

/-- With good closes, the hourly change is a finite number or null. -/
theorem hourly_good (arr : List Bar) (hg : arr.all goodClose = true) :
    (hourlyChangeFromIntervals arr).changePct = none ∨
    ∃ q : ℚ, (hourlyChangeFromIntervals arr).changePct = some (.fin q) := by
  by_cases hlen : arr.length < 6
  · rw [hourlyChangeFromIntervals, if_pos hlen]
    exact Or.inl rfl
  · cases hl : (arr[arr.length - 1]?).bind Bar.closeNum with
    | none =>
        cases hb : (arr[arr.length - 1 - 5]?).bind Bar.closeNum with
        | none =>
            left
            rw [hourlyChangeFromIntervals, if_neg hlen, hl, hb]
        | some bc =>
            left
            rw [hourlyChangeFromIntervals, if_neg hlen, hl, hb]
    | some lc =>
        cases hb : (arr[arr.length - 1 - 5]?).bind Bar.closeNum with
        | none =>
            left
            rw [hourlyChangeFromIntervals, if_neg hlen, hl, hb]
        | some bc =>
            rw [hourlyChange_eval arr lc bc hlen hl hb]
            by_cases hz : bc = JSNum.fin 0
            · rw [if_pos hz]
              exact Or.inl rfl
            · rw [if_neg hz]
              right
              obtain ⟨bar1, hbar1, hc1⟩ :
                  ∃ bar, arr[arr.length - 1]? = some bar ∧ bar.closeNum = some lc := by
                cases hbar : arr[arr.length - 1]? with
                | none => rw [hbar] at hl; simp at hl
                | some bar => rw [hbar] at hl; exact ⟨bar, rfl, by simpa using hl⟩
              obtain ⟨bar2, hbar2, hc2⟩ :
                  ∃ bar, arr[arr.length - 1 - 5]? = some bar ∧ bar.closeNum = some bc := by
                cases hbar : arr[arr.length - 1 - 5]? with
                | none => rw [hbar] at hb; simp at hb
                | some bar => rw [hbar] at hb; exact ⟨bar, rfl, by simpa using hb⟩
              have hgood1 : goodClose bar1 = true :=
                List.all_eq_true.mp hg bar1 (List.getElem?_mem hbar1)
              have hgood2 : goodClose bar2 = true :=
                List.all_eq_true.mp hg bar2 (List.getElem?_mem hbar2)
              obtain ⟨ql, rfl⟩ := goodClose_closeNum bar1 lc hgood1 hc1
              obtain ⟨qb, rfl⟩ := goodClose_closeNum bar2 bc hgood2 hc2
              have hqb : qb ≠ 0 := fun hq => hz (by rw [hq])
              exact ⟨(ql - qb) / qb * 100, by rw [jsPct_fin ql qb hqb]⟩

/-- With a good intraday response, the latest 15-minute price is a finite
number or null. -/
theorem latest15m_price_good (intra : Option (List Bar))
    (hg : goodIntra intra = true) :
    (latest15mClose intra).price = none ∨
    ∃ q : ℚ, (latest15mClose intra).price = some (.fin q) := by
  cases intra with
  | none => exact Or.inl rfl
  | some arr =>
      rw [latest15mClose]
      cases hl : arr.getLast? with
      | none => exact Or.inl (by simp)
      | some bar =>
          cases hc : bar.closeNum with
          | none => exact Or.inl (by simp [hc])
          | some x =>
              right
              have hmem : bar ∈ arr := List.mem_of_mem_getLast? hl
              have hgood : goodClose bar = true :=
                List.all_eq_true.mp (by simpa [goodIntra] using hg) bar hmem
              obtain ⟨q, rfl⟩ := goodClose_closeNum bar x hgood hc
              exact ⟨q, by simp [hc]⟩

/-- With good pages and a good intraday response, the session-lookback
change is a finite number or null. -/
theorem eod_good (pages : List Page) (sb : SbVal) (intra : Option (List Bar))
    (hgp : goodPages pages = true) (hgi : goodIntra intra = true) :
    (eodChangeVsLatest15m pages sb intra).changePct = none ∨
    ∃ q : ℚ, (eodChangeVsLatest15m pages sb intra).changePct = some (.fin q) := by
  cases hn : (latest15mClose intra).price with
  | none =>
      left
      rw [eodChangeVsLatest15m]
      simp only [hn]
  | some n =>
      cases he : (fetchEodHistory pages sb).isEmpty with
      | true =>
          left
          rw [eodChangeVsLatest15m]
          simp only [hn, he]
      | false =>
          cases hb : (eodBaseRow (fetchEodHistory pages sb) sb).bind Bar.closeNum with
          | none =>
              left
              rw [eodChangeVsLatest15m]
              simp only [hn, he, hb]
          | some b =>
              rw [eodChange_eval pages sb intra n b hn he hb]
              by_cases hz : b = JSNum.fin 0
              · rw [if_pos hz]
                exact Or.inl rfl
              · rw [if_neg hz]
                right
                obtain ⟨qn, hqn⟩ : ∃ q : ℚ, n = .fin q := by
                  rcases latest15m_price_good intra hgi with h | ⟨q, hq⟩
                  · rw [h] at hn; cases hn
                  · rw [hq] at hn
                    injection hn with hn
                    exact ⟨q, hn.symm⟩
                obtain ⟨bar, hbar, hcb⟩ :
                    ∃ bar, eodBaseRow (fetchEodHistory pages sb) sb = some bar ∧
                      bar.closeNum = some b := by
                  cases hbar : eodBaseRow (fetchEodHistory pages sb) sb with
                  | none => rw [hbar] at hb; simp at hb
                  | some bar => rw [hbar] at hb; exact ⟨bar, rfl, by simpa using hb⟩
                obtain ⟨p, hp, hbp⟩ := mem_fetchEodHistory pages sb bar
                  (eodBaseRow_mem _ _ _ hbar)
                have hgood : goodClose bar = true := by
                  simp only [goodPages] at hgp
                  have hp2 := List.all_eq_true.mp hgp p hp
                  exact List.all_eq_true.mp hp2 bar hbp
                obtain ⟨qb, rfl⟩ := goodClose_closeNum bar b hgood hcb
                have hqb : qb ≠ 0 := fun hq => hz (by rw [hq])
                subst hqn
                exact ⟨(qn - qb) / qb * 100, by rw [jsPct_fin qn qb hqb]⟩

/-- A good per-ticker upstream yields a finite-or-null percent change. -/
theorem worker_good (range t : String) (u : Upstream)
    (hg : goodUpstream u = true) :
    (worker range t u).changePercent = none ∨
    ∃ q : ℚ, (worker range t u).changePercent = some (.fin q) := by
  cases u with
  | throws => exact Or.inl rfl
  | responds pages intra =>
      rw [goodUpstream, Bool.and_eq_true] at hg
      rw [worker]
      by_cases hr : range = "hour"
      · rw [if_pos hr]
        have hgarr : (latest15mClose intra).intervals.all goodClose = true := by
          cases intra with
          | none => rfl
          | some arr => simpa [latest15mClose, goodIntra] using hg.2
        exact hourly_good _ hgarr
      · rw [if_neg hr]
        exact eod_good pages (sbOf range) intra hg.1 hg.2

/-- C6 (amended): whenever every close value the upstream delivers is a
finite number or a non-number, every metric's `changePercent` is a finite
number or null, both per worker and for every item of a successful
`/api/sp500` response; closes of NaN or Infinity, however, pass the
`typeof`-number and zero guards and can propagate NaN into `changePercent`. -/
theorem C6_finite_or_null :
    (∀ (range t : String) (u : Upstream), goodUpstream u = true →
      (worker range t u).changePercent = none ∨
      ∃ q : ℚ, (worker range t u).changePercent = some (.fin q)) ∧
    (∀ (rangeQ : Option String) (limitQ : Option ℤ)
       (slick : Except ℕ (List String)) (u : String → Upstream)
       (items : List TickerMetric),
      (∀ t, goodUpstream (u t) = true) →
      sp500Handler true rangeQ limitQ slick u = .ok200 items →
      ∀ m ∈ items, m.changePercent = none ∨
        ∃ q : ℚ, m.changePercent = some (.fin q)) := by
  refine ⟨fun range t u hg => worker_good range t u hg, ?_⟩
  intro rangeQ limitQ slick u items hgood heq
  rw [sp500Handler, if_pos rfl] at heq
  cases hg : getTopTickers (limitClamp limitQ).toNat slick with
  | error msg =>
      simp only [hg] at heq
      simp at heq
  | ok ts =>
      simp only [hg, ApiResponse.ok200.injEq] at heq
      intro m hm
      rw [← heq] at hm
      have hm2 := List.mem_of_mem_filter (List.mem_of_mem_take hm)
      rw [chunkRun_eq_map _ _ (handler_conc_pos limitQ)] at hm2
      obtain ⟨t, ht, rfl⟩ := List.mem_map.mp hm2
      exact worker_good (rangeOf rangeQ) t (u t) (hgood t)

/-- Counterexample to C6 as frozen: an upstream close of Infinity — which
standard JSON parsing produces from an overflowing numeric literal — passes
the `typeof x === 'number'` guard and the `=== 0` guard, and the resulting
`changePercent` is NaN, neither a finite number nor null. -/
theorem C6_counterexample :
    (worker "hour" "A" (.responds []
      (some [Bar.obj (.jnum .inf), qBar 1, qBar 2, qBar 3, qBar 4,
        qBar 100]))).changePercent = some JSNum.nan := by
  decide

/-- Witness for C6 at a concrete input: a good six-bar intraday series gives
a finite-or-null percent change. -/
theorem C6_finite_or_null_witness :
    (worker "hour" "A" (.responds []
      (some [qBar 100, qBar 1, qBar 2, qBar 3, qBar 4, qBar 110]))).changePercent
        = none ∨
    ∃ q : ℚ, (worker "hour" "A" (.responds []
      (some [qBar 100, qBar 1, qBar 2, qBar 3, qBar 4, qBar 110]))).changePercent
        = some (.fin q) :=
  C6_finite_or_null.1 "hour" "A" (.responds []
    (some [qBar 100, qBar 1, qBar 2, qBar 3, qBar 4, qBar 110])) (by decide)

/-- C7: the limit query parameter, when it parses to a finite integer, is
clamped into the inclusive range [1, 100] (0 behaves as 1, 1000 as 100);
absent or non-numeric parses default to 10; an out-of-range limit is never
rejected — the handler behaves exactly as with the clamped value — and on
the success path the response holds at most the effective limit. -/
theorem C7_limit_clamp :
    (∀ p : ℤ, 1 ≤ limitClamp (some p) ∧ limitClamp (some p) ≤ 100) ∧
    limitClamp none = 10 ∧
    limitClamp (some 0) = 1 ∧
    limitClamp (some 1000) = 100 ∧
    (∀ (ap : Bool) (rq : Option String) (p : ℤ)
       (slick : Except ℕ (List String)) (u : String → Upstream),
      sp500Handler ap rq (some p) slick u =
        sp500Handler ap rq (some (max 1 (min 100 p))) slick u) ∧
    (∀ (ap : Bool) (rq : Option String) (lq : Option ℤ)
       (slick : Except ℕ (List String)) (u : String → Upstream)
       (items : List TickerMetric),
      sp500Handler ap rq lq slick u = .ok200 items →
      items.length ≤ (limitClamp lq).toNat) := by
  refine ⟨fun p => limitClamp_bounds (some p), by decide, by decide, by decide,
    ?_, ?_⟩
  · intro ap rq p slick u
    have h : limitClamp (some (max 1 (min 100 p))) = limitClamp (some p) := by
      simp only [limitClamp, Option.getD_some]
      omega
    simp only [sp500Handler, h]
  · intro ap rq lq slick u items heq
    cases ap with
    | false =>
        rw [sp500Handler] at heq
        simp at heq
    | true =>
        rw [sp500Handler, if_pos rfl] at heq
        cases hg : getTopTickers (limitClamp lq).toNat slick with
        | error msg =>
            simp only [hg] at heq
            simp at heq
        | ok ts =>
            simp only [hg, ApiResponse.ok200.injEq] at heq
            rw [← heq]
            exact List.length_take_le _ _

/-- Witness for C7 at a concrete input: limit 1000 is accepted, and the
response length respects the clamped limit. -/
theorem C7_limit_clamp_witness :
    ∃ items,
      sp500Handler true none (some 1000) (.ok ["A"]) (fun _ => Upstream.throws) =
        .ok200 items ∧ items.length ≤ (limitClamp (some 1000)).toNat := by
  have heval : sp500Handler true none (some 1000) (.ok ["A"])
      (fun _ => Upstream.throws) = .ok200 [⟨"A", none, none⟩] := by
    have h1 : rangeOf none = "day" := by decide
    simp [sp500Handler, h1, getTopTickers, scrapeCollect, scrapeGo, limitClamp,
      chunkRun, worker]
  exact ⟨[⟨"A", none, none⟩], heval,
    C7_limit_clamp.2.2.2.2.2 true none (some 1000) (.ok ["A"])
      (fun _ => Upstream.throws) [⟨"A", none, none⟩] heval⟩

/-- C8 (amended): for range hour with fewer than 6 intraday bars the metric's
`changePercent` is null, while `price` is still the close of the last
available bar — it is null only when the intraday fetch fails or delivers no
usable last close, not merely because fewer than 6 bars exist. -/
theorem C8_hour_few_bars :
    (∀ (t : String) (pages : List Page) (arr : List Bar), arr.length < 6 →
      worker "hour" t (.responds pages (some arr)) =
        ⟨t, (latest15mClose (some arr)).price, none⟩) ∧
    (∀ (t : String) (pages : List Page),
      worker "hour" t (.responds pages none) = ⟨t, none, none⟩) := by
  constructor
  · intro t pages arr h
    simp only [worker]
    rw [if_pos trivial, show (latest15mClose (some arr)).intervals = arr from rfl,
      hourlyChangeFromIntervals, if_pos h]
  · intro t pages
    rfl

/-- Counterexample to C8 as frozen: with exactly 5 intraday bars (closes 1
through 5) the hour-range metric has `changePercent = null` but
`price = 5`, the close of the last bar — not null as the claim states. -/
theorem C8_counterexample :
    worker "hour" "A" (.responds []
      (some [qBar 1, qBar 2, qBar 3, qBar 4, qBar 5])) =
      ⟨"A", some (.fin 5), none⟩ := by
  decide

/-- Witness for C8 at a concrete input: four bars give a null change and the
last close as the price. -/
theorem C8_hour_few_bars_witness :
    worker "hour" "A" (.responds [] (some [qBar 1, qBar 2, qBar 3, qBar 4])) =
      ⟨"A", some (.fin 4), none⟩ := by
  rw [C8_hour_few_bars.1 "A" [] [qBar 1, qBar 2, qBar 3, qBar 4] (by decide)]
  decide

/-- The scrape collects nothing when the requested count is zero. -/
theorem scrapeCollect_zero (ms : List String) : scrapeCollect 0 ms = [] := by
  cases ms with
  | nil => rfl
  | cons t rest => simp [scrapeCollect, scrapeGo]

/-- C9: the ticker source fails exactly on a non-2xx listing response (with
message naming the HTTP status) or when zero symbols are collected from the
page; on success the returned list is never empty; the failure messages are
never empty strings; and a ticker-source failure makes the whole request a
500 carrying the failure's message. -/
theorem C9_ticker_source_errors :
    (∀ n status : ℕ,
      getTopTickers n (.error status) =
        .error ("SlickCharts HTTP " ++ toString status)) ∧
    (∀ (n : ℕ) (ms : List String), scrapeCollect n ms = [] →
      getTopTickers n (.ok ms) = .error "No S&P500 tickers scraped") ∧
    (∀ (n : ℕ) (resp : Except ℕ (List String)) (ts : List String),
      getTopTickers n resp = .ok ts →
      ts ≠ [] ∧ ∃ ms, resp = .ok ms ∧ scrapeCollect n ms ≠ []) ∧
    (∀ (n : ℕ) (resp : Except ℕ (List String)) (msg : String),
      getTopTickers n resp = .error msg → msg ≠ "") ∧
    (∀ (rq : Option String) (lq : Option ℤ) (slick : Except ℕ (List String))
       (u : String → Upstream) (msg : String), msg ≠ "" →
      getTopTickers (limitClamp lq).toNat slick = .error msg →
      sp500Handler true rq lq slick u = .error500 msg) := by
  refine ⟨fun n status => rfl, ?_, ?_, ?_, ?_⟩
  · intro n ms h
    simp [getTopTickers, h]
  · intro n resp ts h
    obtain ⟨ms, hresp, hne, hts⟩ := getTopTickers_ok n resp ts h
    have hcol : scrapeCollect n ms ≠ [] := by
      intro hnil
      rw [hnil] at hne
      cases hne
    refine ⟨?_, ms, hresp, hcol⟩
    have hn0 : n ≠ 0 := by
      intro h0
      rw [h0, scrapeCollect_zero] at hcol
      exact hcol rfl
    rw [hts]
    intro htake
    rcases List.take_eq_nil_iff.mp htake with h0 | hnil
    · exact hn0 h0
    · exact hcol hnil
  · intro n resp msg h
    cases resp with
    | error status =>
        rw [getTopTickers] at h
        injection h with h
        intro hemp
        rw [← h] at hemp
        have hlen := congrArg String.length hemp
        rw [String.length_append] at hlen
        have h17 : ("SlickCharts HTTP " : String).length = 17 := rfl
        have h0 : ("" : String).length = 0 := rfl
        omega
    | ok ms =>
        rw [getTopTickers] at h
        by_cases he : (scrapeCollect n ms).isEmpty
        · rw [if_pos he] at h
          injection h with h
          rw [← h]
          decide
        · rw [if_neg he] at h
          simp at h
  · intro rq lq slick u msg hmsg hg
    rw [sp500Handler, if_pos rfl]
    simp only [hg]
    rw [if_neg hmsg]

/-- Witness for C9 at a concrete input: a 503 from the listing page turns the
whole request into a 500 naming the status. -/
theorem C9_ticker_source_errors_witness :
    sp500Handler true none none (.error 503) (fun _ => Upstream.throws) =
      .error500 "SlickCharts HTTP 503" :=
  C9_ticker_source_errors.2.2.2.2 none none (.error 503)
    (fun _ => Upstream.throws) "SlickCharts HTTP 503" (by decide) rfl

/-- An unrecognized, non-prototype range behaves exactly like day. -/
theorem worker_unrecognized (r : String) (hh : r ≠ "hour")
    (hs : sbOf r = SbVal.num 1) :
    ∀ (t : String) (u : Upstream), worker r t u = worker "day" t u := by
  intro t u
  cases u with
  | throws => rfl
  | responds pages intra =>
      rw [worker, worker, if_neg hh, if_neg (by decide : ¬("day" = "hour")), hs,
        show sbOf "day" = SbVal.num 1 from by decide]

/-- The handler depends on the range parameter only through its lowercased
value. -/
theorem sp500Handler_range_congr (rq1 rq2 : Option String)
    (h : rangeOf rq1 = rangeOf rq2) (ap : Bool) (lq : Option ℤ)
    (slick : Except ℕ (List String)) (u : String → Upstream) :
    sp500Handler ap rq1 lq slick u = sp500Handler ap rq2 lq slick u := by
  simp only [sp500Handler, h]

/-- C10 (amended): the range parameter is matched case-insensitively —
`WEEK` selects the week path and `Hour` the hour path, exactly as their
lowercase forms — and every value unrecognized after lowercasing behaves as
day through the lookup defaulting to 1, except for the inherited
`Object.prototype` property names `constructor` and `__proto__`, on which
the lookup yields a non-nullish prototype value instead of the default. -/
theorem C10_range_case_insensitive :
    (∀ (ap : Bool) (lq : Option ℤ) (slick : Except ℕ (List String))
       (u : String → Upstream),
      sp500Handler ap (some "WEEK") lq slick u =
        sp500Handler ap (some "week") lq slick u) ∧
    (∀ (ap : Bool) (lq : Option ℤ) (slick : Except ℕ (List String))
       (u : String → Upstream),
      sp500Handler ap (some "Hour") lq slick u =
        sp500Handler ap (some "hour") lq slick u) ∧
    rangeOf (some "WEEK") = "week" ∧
    rangeOf (some "Hour") = "hour" ∧
    (∀ rq : Option String,
      rangeOf rq ≠ "hour" → rangeOf rq ≠ "day" → rangeOf rq ≠ "week" →
      rangeOf rq ≠ "month" → rangeOf rq ≠ "year" →
      rangeOf rq ≠ "constructor" → rangeOf rq ≠ "__proto__" →
      ∀ (ap : Bool) (lq : Option ℤ) (slick : Except ℕ (List String))
        (u : String → Upstream),
        sp500Handler ap rq lq slick u = sp500Handler ap (some "day") lq slick u) := by
  refine ⟨fun ap lq slick u => sp500Handler_range_congr _ _ (by decide) ap lq slick u,
    fun ap lq slick u => sp500Handler_range_congr _ _ (by decide) ap lq slick u,
    by decide, by decide, ?_⟩
  intro rq h1 h2 h3 h4 h5 h6 h7 ap lq slick u
  have hs : sbOf (rangeOf rq) = SbVal.num 1 := by
    simp [sbOf, sessionsMapLookup, h2, h3, h4, h5, h6, h7]
  have hw : (fun t => worker (rangeOf rq) t (u t)) =
      (fun t => worker (rangeOf (some "day")) t (u t)) := by
    funext t
    rw [show rangeOf (some "day") = "day" from by decide]
    exact worker_unrecognized (rangeOf rq) h1 hs t (u t)
  simp only [sp500Handler, hw]

/-- Counterexample to C10 as frozen: the range value `constructor` is
unrecognized after lowercasing yet does not behave as day — the inherited
`Object.prototype.constructor` survives `?? 1`, so the comparison base
becomes the oldest collected row: here day yields a null change (its base
row's close is 0) while `constructor` yields -60 against the oldest row. -/
theorem C10_counterexample :
    sp500Handler true (some "constructor") (some 1) (.ok ["A"])
        (fun _ => .responds [⟨true, [qBar 105, Bar.obj (.jnum (.fin 0)), qBar 25],
          false⟩] (some [qBar 10])) =
      .ok200 [⟨"A", some (.fin 10), some (.fin (-60))⟩] ∧
    sp500Handler true (some "day") (some 1) (.ok ["A"])
        (fun _ => .responds [⟨true, [qBar 105, Bar.obj (.jnum (.fin 0)), qBar 25],
          false⟩] (some [qBar 10])) =
      .ok200 [⟨"A", some (.fin 10), none⟩] := by
  constructor
  · have h1 : rangeOf (some "constructor") = "constructor" := by decide
    have h2 : jsPct (.fin 10) (.fin 25) = .fin (-60) := by
      rw [jsPct_fin 10 25 (by norm_num)]
      norm_num
    simp [sp500Handler, h1, h2, getTopTickers, scrapeCollect, scrapeGo, limitClamp,
      chunkRun, worker, sbOf, sessionsMapLookup, eodChangeVsLatest15m,
      fetchEodHistory, fetchEodLoop, sbNeedCond, latest15mClose, eodBaseRow,
      Bar.closeNum, qBar]
  · have h1 : rangeOf (some "day") = "day" := by decide
    simp [sp500Handler, h1, getTopTickers, scrapeCollect, scrapeGo, limitClamp,
      chunkRun, worker, sbOf, sessionsMapLookup, eodChangeVsLatest15m,
      fetchEodHistory, fetchEodLoop, sbNeedCond, latest15mClose, eodBaseRow,
      Bar.closeNum, qBar]

/-- Witness for C10 at a concrete input: the unrecognized range `foo`
behaves exactly as day. -/
theorem C10_range_case_insensitive_witness :
    sp500Handler true (some "foo") none (.ok ["A"]) (fun _ => Upstream.throws) =
      sp500Handler true (some "day") none (.ok ["A"]) (fun _ => Upstream.throws) :=
  C10_range_case_insensitive.2.2.2.2 (some "foo") (by decide) (by decide)
    (by decide) (by decide) (by decide) (by decide) (by decide) true none
    (.ok ["A"]) (fun _ => Upstream.throws)
